import Mathlib

/-!
# littleci — verification of the core against its source

Shallow embedding of the littleci CI dispatcher (Rust) and proofs about it.
Each embedded definition is translated from a named function of the source
tree; timestamps (`NaiveDateTime`, second precision) are modelled as `Nat`,
machine integers `i32` as `Int`, SQL tables as Lean lists kept in `rowid`
(insertion) order, and fallible operations as `Except`/`Option`.
-/

namespace LittleCI

/-! ## Execution status (src/queue/mod.rs, `ExecutionStatus`) -/

/-- `ExecutionStatus` from src/queue/mod.rs: the job status state space.
`failed` carries the child's exit code (`i32` modelled as `Int`). -/
inductive ExecutionStatus where
  | cancelled
  | queued
  | running
  | failed (exitCode : Int)
  | completed
  | unknown
  deriving DecidableEq, Repr

/-- `impl Into<(String, Option<i32>)> for ExecutionStatus`
(src/model/queues.rs lines 86–97): how a status is serialized into the
`status` and `exit_code` columns of a job row. -/
def ExecutionStatus.toRow : ExecutionStatus → String × Option Int
  | .cancelled => ("cancelled", none)
  | .queued => ("queued", none)
  | .running => ("running", none)
  | .failed exitCode => ("failed", some exitCode)
  | .completed => ("completed", none)
  | .unknown => ("unknown", none)

/-- `impl From<(&str, &Option<i32>)> for ExecutionStatus`
(src/model/queues.rs lines 73–84): how the `status`/`exit_code` columns are
parsed back; every pair not matched by an explicit arm falls to `unknown`. -/
def ExecutionStatus.ofRow : String × Option Int → ExecutionStatus
  | ("cancelled", none) => .cancelled
  | ("queued", none) => .queued
  | ("running", none) => .running
  | ("failed", some exitCode) => .failed exitCode
  | ("completed", none) => .completed
  | _ => .unknown

/-- The row pairs recognized by an explicit arm of `ExecutionStatus.ofRow`. -/
def recognizedRow (p : String × Option Int) : Prop :=
  p = ("cancelled", none) ∨ p = ("queued", none) ∨ p = ("running", none) ∨
    (p.1 = "failed" ∧ p.2.isSome) ∨ p = ("completed", none)

instance (p : String × Option Int) : Decidable (recognizedRow p) := by
  unfold recognizedRow; infer_instance

/-! ## Terminal status from the child wait result
(src/queue/job.rs, `CommandRunner::process`, lines 140–182) -/

/-- The outcome of `command.status()` in `CommandRunner::process`:
`ok code?` is `Ok(status)` where `status.code()` is `code?` (`none` when the
child was killed by a signal), `err` is `Err(_)` (spawn/wait failure). -/
inductive WaitResult where
  | ok (code : Option Int)
  | err
  deriving DecidableEq, Repr

/-- `SUCCESS_EXIT_CODE` from src/queue/job.rs line 40. -/
def SUCCESS_EXIT_CODE : Int := 0

/-- The terminal status assigned by `CommandRunner::process`
(src/queue/job.rs lines 140–182) from the wait result:
`Ok`/`Some(code)` with `code != SUCCESS_EXIT_CODE` → `Failed(code)`,
otherwise `Completed`; `Ok`/`None` (killed by signal) → `Cancelled`;
`Err` (unable to launch) → `Failed(-1)`. -/
def terminalStatus : WaitResult → ExecutionStatus
  | .ok (some code) =>
      if code ≠ SUCCESS_EXIT_CODE then .failed code else .completed
  | .ok none => .cancelled
  | .err => .failed (-1)

/-! ## Job rows and the queue table (src/model/queues.rs) -/

/-- `QueueRecord` from src/model/queues.rs lines 50–60: one row of the
`queue` table. -/
structure QueueRecord where
  id : String
  status : String
  exitCode : Option Int
  data : String
  createdAt : Nat
  updatedAt : Nat
  repositoryId : String
  deriving DecidableEq, Repr

/-- One step of scanning for the first row under `ORDER BY created_at ASC`:
keep the current best unless the new row is strictly older. -/
def pickMin (best : Option QueueRecord) (r : QueueRecord) : Option QueueRecord :=
  match best with
  | none => some r
  | some b => if r.createdAt < b.createdAt then some r else some b

/-- The first row of a list of rows ordered by `created_at ASC`
(`.order(created_at.asc()).first`): the SQL table is modelled as a list in
`rowid` (insertion) order and `ORDER BY` as a stable sort, so the result is
the earliest-inserted row among those with minimal `created_at`. -/
def firstByCreatedAtAsc (rows : List QueueRecord) : Option QueueRecord :=
  rows.foldl pickMin none

/-- `Queues::next_queued` (src/model/queues.rs lines 190–204): filter the
`queue` table by `repository_id = record_id` and `status = "queued"`
(the string obtained from `ExecutionStatus::Queued.into()`), order by
`created_at ASC`, take the first row; `Err(NotFound)` becomes `None`. -/
def Queues.next_queued (store : List QueueRecord) (recordId : String) :
    Option QueueRecord :=
  firstByCreatedAtAsc
    ((store.filter (fun r => r.repositoryId = recordId)).filter
      (fun r => r.status = (ExecutionStatus.queued.toRow).1))

/-- The rows of the queue table that `Queues.next_queued` selects from. -/
def queuedRows (store : List QueueRecord) (recordId : String) :
    List QueueRecord :=
  (store.filter (fun r => r.repositoryId = recordId)).filter
    (fun r => r.status = (ExecutionStatus.queued.toRow).1)

theorem next_queued_eq_first (store : List QueueRecord) (recordId : String) :
    Queues.next_queued store recordId =
      firstByCreatedAtAsc (queuedRows store recordId) := rfl

/-- `c` is the earliest-inserted row of `l` among those with minimal
`created_at`: the row the query `ORDER BY created_at ASC LIMIT 1` returns
(ties broken by insertion order). -/
def earliestMinBy (l : List QueueRecord) (c : QueueRecord) : Prop :=
  ∃ pre post, l = pre ++ c :: post ∧
    (∀ x ∈ pre, c.createdAt < x.createdAt) ∧
    (∀ x ∈ l, c.createdAt ≤ x.createdAt)

theorem foldl_pickMin_spec (rows : List QueueRecord) :
    ∀ b : QueueRecord, ∃ c, rows.foldl pickMin (some b) = some c ∧
      earliestMinBy (b :: rows) c := by
  induction rows with
  | nil =>
    intro b
    refine ⟨b, rfl, [], [], rfl, ?_, ?_⟩
    · intro x hx; simp at hx
    · intro x hx; simp at hx; simp [hx]
  | cons r rest ih =>
    intro b
    by_cases hlt : r.createdAt < b.createdAt
    · obtain ⟨c, hfold, pre, post, hdec, hpre, hmin⟩ := ih r
      have hminr : c.createdAt ≤ r.createdAt := hmin r (List.mem_cons_self r rest)
      refine ⟨c, ?_, b :: pre, post, ?_, ?_, ?_⟩
      · simpa [pickMin, hlt] using hfold
      · simp [hdec]
      · intro x hx
        rcases List.mem_cons.mp hx with hxb | hxpre
        · exact hxb ▸ lt_of_le_of_lt hminr hlt
        · exact hpre x hxpre
      · intro x hx
        rcases List.mem_cons.mp hx with hxb | hxtail
        · exact hxb ▸ le_of_lt (lt_of_le_of_lt hminr hlt)
        · exact hmin x (hdec ▸ hxtail)
    · obtain ⟨c, hfold, pre, post, hdec, hpre, hmin⟩ := ih b
      have hble : b.createdAt ≤ r.createdAt := le_of_not_lt hlt
      have hfold' : (r :: rest).foldl pickMin (some b) = some c := by
        simpa [pickMin, hlt] using hfold
      cases pre with
      | nil =>
        have hcb : b = c := by simpa using congrArg (fun l => l.head?) hdec
        have hrest : rest = post := by simpa using congrArg (fun l => l.tail) hdec
        refine ⟨c, hfold', [], r :: rest, by simp [hcb], ?_, ?_⟩
        · intro x hx; simp at hx
        · intro x hx
          rcases List.mem_cons.mp hx with hxb | hxtail
          · simp [hxb, ← hcb]
          · rcases List.mem_cons.mp hxtail with hxr | hxrest
            · subst hxr; simpa [← hcb] using hble
            · exact hmin x (by simp [hxrest])
      | cons p pre' =>
        have hbp : b = p := by simpa using congrArg (fun l => l.head?) hdec
        have hrest : rest = pre' ++ c :: post := by
          simpa using congrArg (fun l => l.tail) hdec
        have hcb : c.createdAt < b.createdAt := by
          have := hpre p (by simp)
          simpa [← hbp] using this
        refine ⟨c, hfold', b :: r :: pre', post, ?_, ?_, ?_⟩
        · simp [hrest]
        · intro x hx
          rcases List.mem_cons.mp hx with hxb | hx'
          · exact hxb ▸ hcb
          · rcases List.mem_cons.mp hx' with hxr | hxpre'
            · exact hxr ▸ lt_of_lt_of_le hcb hble
            · exact hpre x (by simp [hxpre'])
        · intro x hx
          rcases List.mem_cons.mp hx with hxb | hx'
          · exact hxb ▸ le_of_lt hcb
          · rcases List.mem_cons.mp hx' with hxr | hxrest
            · exact hxr ▸ le_of_lt (lt_of_lt_of_le hcb hble)
            · exact hmin x (List.mem_cons_of_mem b hxrest)

theorem firstByCreatedAtAsc_none_iff (rows : List QueueRecord) :
    firstByCreatedAtAsc rows = none ↔ rows = [] := by
  cases rows with
  | nil => simp [firstByCreatedAtAsc]
  | cons r rest =>
    obtain ⟨c, hfold, _⟩ := foldl_pickMin_spec rest r
    simp only [firstByCreatedAtAsc, List.foldl_cons, pickMin]
    rw [hfold]
    simp

theorem firstByCreatedAtAsc_spec (rows : List QueueRecord) (c : QueueRecord)
    (h : firstByCreatedAtAsc rows = some c) : earliestMinBy rows c := by
  cases rows with
  | nil => simp [firstByCreatedAtAsc] at h
  | cons r rest =>
    obtain ⟨c', hfold, hspec⟩ := foldl_pickMin_spec rest r
    have : (firstByCreatedAtAsc (r :: rest)) = some c' := by
      simpa [firstByCreatedAtAsc, pickMin] using hfold
    rw [this] at h
    exact (Option.some_inj.mp h) ▸ hspec

theorem earliestMinBy_mem {l : List QueueRecord} {c : QueueRecord}
    (h : earliestMinBy l c) : c ∈ l := by
  obtain ⟨pre, post, hdec, -, -⟩ := h
  simp [hdec]

theorem earliestMinBy_min {l : List QueueRecord} {c : QueueRecord}
    (h : earliestMinBy l c) : ∀ x ∈ l, c.createdAt ≤ x.createdAt := by
  obtain ⟨-, -, -, -, hmin⟩ := h
  exact hmin

/-! ## Triggers (src/config/mod.rs) and git references (src/server/git.rs) -/

/-- `GitTrigger` from src/config/mod.rs lines 111–119. -/
inductive GitTrigger where
  | any
  | head (refs : List String)
  | tag
  deriving DecidableEq, Repr

/-- `Trigger` from src/config/mod.rs lines 121–127. -/
inductive Trigger where
  | any
  | git (t : GitTrigger)
  deriving DecidableEq, Repr

/-- `GitReference` from src/server/git.rs lines 5–10: a parsed git ref,
`head branch` for `refs/heads/<branch>`, `tag name` for `refs/tags/<name>`. -/
inductive GitReference where
  | head (branch : String)
  | tag (name : String)
  deriving DecidableEq, Repr

/-- `GitHubPayload` from src/server/github.rs lines 79–86. -/
structure GitHubPayload where
  reference : GitReference
  before : String
  after : String
  headCommit : Option String
  deriving DecidableEq, Repr

/-! ## Repositories (src/model/repositories.rs) -/

/-- `Repository` from src/model/repositories.rs lines 19–52, as materialized
from a row (`HashMap` variables modelled as an association list). -/
structure Repository where
  id : String
  slug : String
  name : String
  run : String
  workingDir : Option String
  secret : String
  «variables» : List (String × String)
  triggers : List Trigger
  webhooks : List String
  deleted : Bool
  createdAt : Nat
  updatedAt : Nat
  deriving DecidableEq, Repr

/-- `Repositories::find_by_id` (src/model/repositories.rs lines 284–295):
`repositories.filter(id.eq(repository_id)).first`, i.e. the first row whose
`id` column matches — the query has no filter on the `deleted` column. -/
def Repositories.find_by_id (store : List Repository)
    (repositoryId : String) : Option Repository :=
  store.find? (fun r => r.id = repositoryId)

/-- `Repositories::find_by_slug` (src/model/repositories.rs lines 297–308):
first row whose `slug` column matches, with no filter on `deleted`. -/
def Repositories.find_by_slug (store : List Repository)
    (repositorySlug : String) : Option Repository :=
  store.find? (fun r => r.slug = repositorySlug)

/-! ## One iteration of the drain loop (src/queue/job.rs lines 64–88) -/

/-- What one iteration of the `CommandRunner::process` drain loop decides to
do before any child is spawned. -/
inductive DrainStep where
  | exitRepoMissing
  | exitNoJob
  | run (item : QueueRecord)
  deriving DecidableEq, Repr

/-- One iteration of the drain loop head (src/queue/job.rs lines 64–88):
re-read the repository with `Repositories::find_by_id` (returning from the
thread when it is `None`), then take `Queues::next_queued(&repository.id)`
(breaking out of the loop when it is `None`); otherwise the taken item is
transitioned to `Running` and executed. -/
def drainStep (repos : List Repository) (queue : List QueueRecord)
    (repositoryId : String) : DrainStep :=
  match Repositories.find_by_id repos repositoryId with
  | none => .exitRepoMissing
  | some repository =>
    match Queues.next_queued queue repository.id with
    | none => .exitNoJob
    | some item => .run item

/-! ## The drain loop's job selection order
(src/queue/job.rs, `CommandRunner::process`) -/

/-- The `queue`-table write performed by `Queues::update_status`
(src/model/queues.rs lines 206–234): `update(queue.find(&item.id))` sets
the `status` and `exit_code` columns from the item's status via `Into`,
and `updated_at` to the current time (modelled by `now`). The status-log
row it also appends goes to the `queue_logs` table, which `next_queued`
never reads. -/
def updateStatusRows (store : List QueueRecord) (jobId : String)
    (st : ExecutionStatus) (now : Nat) : List QueueRecord :=
  store.map fun r =>
    if r.id = jobId then
      { r with status := (st.toRow).1, exitCode := (st.toRow).2,
               updatedAt := now }
    else r

/-- The sequence of jobs a drain pass of `CommandRunner::process`
(src/queue/job.rs lines 64–189) takes, in order: each iteration re-reads the
repository with `Repositories::find_by_id` (returning when it is `None`),
takes `Queues::next_queued(&repository.id)` (breaking when it is `None`),
writes `Running` for the taken item via `update_status`, runs the child and
writes the terminal status `terminalStatus (wait item)` via `update_status`,
then loops. The log-directory and webhook side effects do not touch the
`queue` table and are omitted; on the source's local failure paths
(log directory or log file creation) the terminal write or the rest of the
pass is skipped, which also never returns a row to `"queued"`. `wait` is
the oracle for each child's wait result, `now` the clock at the writes,
and `fuel` bounds the number of iterations. -/
def drainJobOrder (repos : List Repository) (repositoryId : String)
    (wait : QueueRecord → WaitResult) (now : Nat) :
    Nat → List QueueRecord → List QueueRecord
  | 0, _ => []
  | fuel + 1, store =>
    match Repositories.find_by_id repos repositoryId with
    | none => []
    | some repository =>
      match Queues.next_queued store repository.id with
      | none => []
      | some item =>
          let afterRunning := updateStatusRows store item.id .running now
          let afterTerminal :=
            updateStatusRows afterRunning item.id (terminalStatus (wait item)) now
          item :: drainJobOrder repos repositoryId wait now fuel afterTerminal

/-- A repository returned by `find_by_id` matches the queried id (it is the
only filter of the query). -/
theorem find_by_id_eq_id (repos : List Repository) (rid : String)
    (repo : Repository) (h : Repositories.find_by_id repos rid = some repo) :
    repo.id = rid := by
  have := List.find?_some h
  simpa using this

/-- No status the engine writes after taking a job serializes to the column
value `"queued"`. -/
theorem toRow_running_ne_queued : (ExecutionStatus.running.toRow).1 ≠ "queued" := by
  decide

theorem terminalStatus_toRow_ne_queued (w : WaitResult) :
    ((terminalStatus w).toRow).1 ≠ "queued" := by
  rcases w with ⟨_ | c⟩ | _
  · decide
  · by_cases h : c = SUCCESS_EXIT_CODE <;>
      simp [terminalStatus, h, ExecutionStatus.toRow]
  · decide

/-- Writing a status that does not serialize to `"queued"` can only remove
rows from the set `next_queued` selects from, never add to it. -/
theorem queuedRows_updateStatus_subset (store : List QueueRecord)
    (jobId : String) (st : ExecutionStatus) (now : Nat) (recordId : String)
    (hst : (st.toRow).1 ≠ "queued") :
    ∀ x ∈ queuedRows (updateStatusRows store jobId st now) recordId,
      x ∈ queuedRows store recordId := by
  intro x hx
  have hx' : x ∈ updateStatusRows store jobId st now ∧
      x.status = (ExecutionStatus.queued.toRow).1 ∧
      x.repositoryId = recordId := by
    simpa [queuedRows, List.mem_filter, and_assoc] using hx
  obtain ⟨hmem, hstatus, hrepo⟩ := hx'
  obtain ⟨r, hr, hxr⟩ := List.mem_map.mp hmem
  by_cases hid : r.id = jobId
  · exfalso
    apply hst
    have hxs : x.status = (st.toRow).1 := by rw [← hxr]; simp [hid]
    have hq : (st.toRow).1 = (ExecutionStatus.queued.toRow).1 := by
      rw [← hxs, hstatus]
    simpa [ExecutionStatus.toRow] using hq
  · have hxeq : x = r := by rw [← hxr]; simp [hid]
    subst hxeq
    simp only [queuedRows, List.mem_filter, decide_eq_true_eq]
    exact ⟨⟨hr, by simp [hrepo]⟩, by simp [hstatus]⟩

/-- Every job the drain pass takes was a `queued` row of the repository in
the starting store. -/
theorem mem_drainJobOrder (repos : List Repository) (repositoryId : String)
    (wait : QueueRecord → WaitResult) (now : Nat) :
    ∀ (fuel : Nat) (store : List QueueRecord) (x : QueueRecord),
      x ∈ drainJobOrder repos repositoryId wait now fuel store →
        x ∈ queuedRows store repositoryId := by
  intro fuel
  induction fuel with
  | zero => intro store x hx; simp [drainJobOrder] at hx
  | succ fuel ih =>
    intro store x hx
    rw [drainJobOrder] at hx
    rcases hrepo : Repositories.find_by_id repos repositoryId with - | repository
    · rw [hrepo] at hx; simp at hx
    · rw [hrepo] at hx
      dsimp only at hx
      have hid : repository.id = repositoryId := find_by_id_eq_id _ _ _ hrepo
      rw [hid] at hx
      rcases hsel : Queues.next_queued store repositoryId with - | item
      · rw [hsel] at hx; simp at hx
      · rw [hsel] at hx
        rcases List.mem_cons.mp hx with hxi | hxtail
        · subst hxi
          exact earliestMinBy_mem
            (firstByCreatedAtAsc_spec _ _ (next_queued_eq_first _ _ ▸ hsel))
        · have h1 := ih _ x hxtail
          have h2 := queuedRows_updateStatus_subset _ item.id
            (terminalStatus (wait item)) now repositoryId
            (terminalStatus_toRow_ne_queued _) x h1
          exact queuedRows_updateStatus_subset _ item.id .running now
            repositoryId toRow_running_ne_queued x h2

/-- The drain pass takes jobs in `created_at` ascending order. -/
theorem drainJobOrder_sorted (repos : List Repository) (repositoryId : String)
    (wait : QueueRecord → WaitResult) (now : Nat) :
    ∀ (fuel : Nat) (store : List QueueRecord),
      List.Pairwise (fun a b => a.createdAt ≤ b.createdAt)
        (drainJobOrder repos repositoryId wait now fuel store) := by
  intro fuel
  induction fuel with
  | zero => intro store; simp [drainJobOrder]
  | succ fuel ih =>
    intro store
    rw [drainJobOrder]
    rcases hrepo : Repositories.find_by_id repos repositoryId with - | repository
    · simp
    · dsimp only
      have hid : repository.id = repositoryId := find_by_id_eq_id _ _ _ hrepo
      rw [hid]
      rcases hsel : Queues.next_queued store repositoryId with - | item
      · simp
      · refine List.Pairwise.cons ?_ (ih _)
        intro y hy
        have hyq := mem_drainJobOrder repos repositoryId wait now fuel _ y hy
        have hy2 := queuedRows_updateStatus_subset _ item.id
          (terminalStatus (wait item)) now repositoryId
          (terminalStatus_toRow_ne_queued _) y hyq
        have hy1 := queuedRows_updateStatus_subset _ item.id .running now
          repositoryId toRow_running_ne_queued y hy2
        exact earliestMinBy_min
          (firstByCreatedAtAsc_spec _ _ (next_queued_eq_first _ _ ▸ hsel)) y hy1

/-! ## The GitHub notify handler's trigger matching
(src/server/mod.rs, `notify_github`, lines 188–242) -/

/-- The inner `for trigger_ref in refs.iter()` loop of the
`Trigger::Git(GitTrigger::Head(refs))` arm (src/server/mod.rs lines
209–221): `should_skip` is set to `false` when the payload reference is
`Head(payload_ref)` and `trigger_ref == payload_ref`. -/
def headRefsLoop (payload : GitHubPayload) : Bool → List String → Bool
  | skip, [] => skip
  | skip, triggerRef :: rest =>
      headRefsLoop payload
        (match payload.reference with
         | .head payloadRef => if triggerRef = payloadRef then false else skip
         | _ => skip)
        rest

/-- The `for trigger in triggers` loop of `notify_github`
(src/server/mod.rs lines 188–223): `should_skip` starts as the accumulator,
`Any` and `Git(Any)` set it to `false` and `break`, `Git(Tag)` sets it to
`false` when the payload reference is a tag, `Git(Head(refs))` runs the
inner loop; the final value is returned. -/
def shouldSkipLoop (payload : GitHubPayload) : Bool → List Trigger → Bool
  | skip, [] => skip
  | skip, trigger :: rest =>
      match trigger with
      | .any => false
      | .git .any => false
      | .git .tag =>
          shouldSkipLoop payload
            (match payload.reference with
             | .tag _ => false
             | _ => skip)
            rest
      | .git (.head refs) =>
          shouldSkipLoop payload (headRefsLoop payload skip refs) rest

/-- `should_skip` as computed by `notify_github`: initialized `true`, then
the trigger loop. -/
def notifyGithubShouldSkip (triggers : List Trigger)
    (payload : GitHubPayload) : Bool :=
  shouldSkipLoop payload true triggers

/-- The trigger-matching table of spec §4.3, stated independently of the
loop: `Any` matches everything, `Git(Any)` matches every git payload,
`Git(Tag)` matches exactly tag references, `Git(Head(refs))` matches exactly
head references whose branch is in `refs`. -/
def triggerMatches (payload : GitHubPayload) : Trigger → Bool
  | .any => true
  | .git .any => true
  | .git .tag =>
      match payload.reference with
      | .tag _ => true
      | _ => false
  | .git (.head refs) =>
      match payload.reference with
      | .head branch => refs.contains branch
      | _ => false

/-- The observable outcome of `notify_github` after the loop
(src/server/mod.rs lines 225–242): skip with the fixed message, or hand the
payload to `notify_new_job` (enqueue). -/
inductive NotifyGithubOutcome where
  | skipped (message : String)
  | enqueue
  deriving DecidableEq, Repr

/-- The branch taken by `notify_github` on its `should_skip` result
(src/server/mod.rs lines 225–242). -/
def notify_github_decision (repository : Repository)
    (payload : GitHubPayload) : NotifyGithubOutcome :=
  if notifyGithubShouldSkip repository.triggers payload then
    .skipped "Trigger rules not matched. No job queued"
  else
    .enqueue

theorem headRefsLoop_eq (payload : GitHubPayload) :
    ∀ (refs : List String) (skip : Bool),
      headRefsLoop payload skip refs =
        (skip && !(triggerMatches payload (.git (.head refs)))) := by
  intro refs
  induction refs with
  | nil =>
    intro skip
    rcases href : payload.reference <;> cases skip <;>
      simp [headRefsLoop, triggerMatches, href]
  | cons r rest ih =>
    intro skip
    rcases href : payload.reference with branch | name
    · by_cases hr : r = branch
      · simp [headRefsLoop, href, hr, ih, triggerMatches]
      · simp [headRefsLoop, href, hr, ih, triggerMatches, Ne.symm hr]
    · simp [headRefsLoop, href, ih, triggerMatches]

theorem shouldSkipLoop_eq (payload : GitHubPayload) :
    ∀ (triggers : List Trigger) (skip : Bool),
      shouldSkipLoop payload skip triggers =
        (skip && !(triggers.any (triggerMatches payload))) := by
  intro triggers
  induction triggers with
  | nil => intro skip; cases skip <;> simp [shouldSkipLoop]
  | cons t rest ih =>
    intro skip
    match t with
    | .any => simp [shouldSkipLoop, triggerMatches]
    | .git .any => simp [shouldSkipLoop, triggerMatches]
    | .git .tag =>
        rcases href : payload.reference with branch | name <;>
          simp [shouldSkipLoop, href, ih, triggerMatches, Bool.and_assoc]
    | .git (.head refs) =>
        simp [shouldSkipLoop, ih, headRefsLoop_eq, triggerMatches,
          Bool.and_assoc]

/-! ## kebab_case (src/main.rs lines 151–164) -/

/-- The character class `[A-Za-z0-9]` of the regex in `kebab_case`. -/
def isAsciiAlphanum (c : Char) : Bool :=
  ('A' ≤ c && c ≤ 'Z') || ('a' ≤ c && c ≤ 'z') || ('0' ≤ c && c ≤ '9')

/-- `Rust str::to_lowercase` restricted to ASCII (every character this
development feeds it is ASCII, where the Unicode and ASCII lowercase maps
agree). -/
def asciiToLower (c : Char) : Char :=
  if 'A' ≤ c && c ≤ 'Z' then Char.ofNat (c.toNat + 32) else c

/-- `String::to_lowercase` on the strings of this development (see
`asciiToLower`). -/
def stringToLower (s : String) : String :=
  String.mk (s.toList.map asciiToLower)

/-- Scanner for the maximal runs matched by `re.find_iter` for
`([A-Za-z0-9])+` (src/main.rs lines 154–160); `fuel` makes the recursion
structural and is instantiated with the list length, an upper bound on the
number of steps (each step consumes at least one character). -/
def alnumRunsFuel : Nat → List Char → List (List Char)
  | 0, _ => []
  | _ + 1, [] => []
  | fuel + 1, c :: cs =>
    if isAsciiAlphanum c then
      (c :: cs.takeWhile isAsciiAlphanum) ::
        alnumRunsFuel fuel (cs.dropWhile isAsciiAlphanum)
    else
      alnumRunsFuel fuel cs

/-- The maximal non-empty runs of alphanumeric characters, as matched by
`re.find_iter` for `([A-Za-z0-9])+` (src/main.rs lines 154–160). -/
def alnumRuns (cs : List Char) : List (List Char) :=
  alnumRunsFuel cs.length cs

/-- `kebab_case` (src/main.rs lines 151–164): the matched alphanumeric
groups joined by `"-"`, lower-cased. -/
def kebab_case (original : String) : String :=
  stringToLower
    (String.intercalate "-"
      ((alnumRuns original.toList).map (fun cs => String.mk cs)))

/-! ## Repository rows and `Repositories::save`
(src/model/repositories.rs) -/

/-- `RepositoryRecord` from src/model/repositories.rs lines 94–113: one row
of the `repositories` table (`variables`, `triggers`, `webhooks` are
JSON-serialized single columns; `deleted` is an SQL integer). -/
structure RepositoryRecord where
  id : String
  slug : String
  name : String
  run : String
  workingDir : Option String
  secret : String
  «variables» : Option String
  triggers : Option String
  webhooks : Option String
  deleted : Int
  createdAt : Nat
  updatedAt : Nat
  deriving DecidableEq, Repr

/-- Stand-in for `serde_json::to_string` on the `variables` map. The exact
encoding is external-crate behaviour and irrelevant to every property proved
here; only that it is a total function of the value is used. -/
def jsonOfVariables (vars : List (String × String)) : String :=
  String.intercalate "," (vars.map (fun kv => kv.1 ++ ":" ++ kv.2))

/-- Stand-in for `serde_json::to_string` on the trigger list (see
`jsonOfVariables`). -/
def jsonOfTriggers (triggers : List Trigger) : String :=
  String.intercalate ","
    (triggers.map fun t =>
      match t with
      | .any => "any"
      | .git .any => "git:any"
      | .git .tag => "git:tag"
      | .git (.head refs) => "git:head:" ++ String.intercalate "|" refs)

/-- Stand-in for `serde_json::to_string` on the webhook list (see
`jsonOfVariables`). -/
def jsonOfWebhooks (webhooks : List String) : String :=
  String.intercalate "," webhooks

/-- `impl From<Repository> for RepositoryRecord`
(src/model/repositories.rs lines 115–141): every field is copied, the three
complex attributes are serialized to `Some(json)`, `deleted` is cast to the
integer column. -/
def RepositoryRecord.ofRepository (record : Repository) : RepositoryRecord :=
  { id := record.id
    slug := record.slug
    name := record.name
    run := record.run
    workingDir := record.workingDir
    secret := record.secret
    «variables» := some (jsonOfVariables record.«variables»)
    triggers := some (jsonOfTriggers record.triggers)
    webhooks := some (jsonOfWebhooks record.webhooks)
    deleted := if record.deleted then 1 else 0
    createdAt := record.createdAt
    updatedAt := record.updatedAt }

/-- One SQL `SET` assignment produced by a diesel changeset. The right-hand
side of every assignment in `Repositories::save` is a constant, so an
assignment is modelled as the row transformer it denotes; a `SET` list is
applied left to right, which on constant assignments realizes SQLite's rule
that the rightmost assignment to a column wins. -/
abbrev Assignment := RepositoryRecord → RepositoryRecord

/-- The assignments generated by `#[derive(AsChangeset)]` for
`RepositoryRecord` (src/model/repositories.rs lines 94–113) under diesel
1.x semantics: every column except the primary key `id` is assigned; a
field of `Option` type contributes no assignment when it is `None`. -/
def recordChangeset (r : RepositoryRecord) : List Assignment :=
  let optAssign : Option String → (String → Assignment) → List Assignment :=
    fun v f =>
      match v with
      | some s => [f s]
      | none => []
  ([fun row => { row with slug := r.slug },
    fun row => { row with name := r.name },
    fun row => { row with run := r.run }] : List Assignment)
  ++ optAssign r.workingDir (fun w row => { row with workingDir := some w })
  ++ ([fun row => { row with secret := r.secret }] : List Assignment)
  ++ optAssign r.«variables» (fun v row => { row with «variables» := some v })
  ++ optAssign r.triggers (fun t row => { row with triggers := some t })
  ++ optAssign r.webhooks (fun w row => { row with webhooks := some w })
  ++ ([fun row => { row with deleted := r.deleted },
       fun row => { row with createdAt := r.createdAt },
       fun row => { row with updatedAt := r.updatedAt }] : List Assignment)

/-- The assignments of the `RepositorySecret` changeset
(src/model/repositories.rs lines 176–186): its only field is
`secret: Option<String>`, so `as_none()` contributes no assignment under
diesel 1.x `AsChangeset` semantics. -/
def repositorySecretChangeset : Option String → List Assignment
  | some s => [fun row => { row with secret := s }]
  | none => []

/-- `RepositorySecret::as_none()` (src/model/repositories.rs lines 182–186). -/
def repositorySecretAsNone : Option String := none

/-- Apply a `SET` list to a row, left to right. -/
def applySet (assignments : List Assignment) (row : RepositoryRecord) :
    RepositoryRecord :=
  assignments.foldl (fun acc f => f acc) row

/-- `Repositories::find_by_slug` at the row level (the
`Repository::from(record)` conversion preserves the `id` column, which is
all `save` reads from the result). -/
def findRowBySlug (store : List RepositoryRecord) (repositorySlug : String) :
    Option RepositoryRecord :=
  store.find? (fun r => r.slug = repositorySlug)

/-- `Repositories::save` (src/model/repositories.rs lines 233–267): reject
when another id already holds the recomputed slug; otherwise convert the
submitted `Repository` to a record, overwrite its `slug` with
`kebab_case(name)`, and run
`update(repositories.filter(id)).set((&repository, slug.eq(kebab_case(name)),
RepositorySecret::as_none()))`. The store is returned updated. -/
def Repositories.save (store : List RepositoryRecord)
    (repository : Repository) : Except String (List RepositoryRecord) :=
  let repositorySlug := kebab_case repository.name
  let dup : Bool :=
    match findRowBySlug store repositorySlug with
    | some existing => existing.id != repository.id
    | none => false
  if dup then
    .error "Repository slug already exists"
  else
    let record :=
      { RepositoryRecord.ofRepository repository with
          slug := kebab_case repository.name }
    let assignments :=
      recordChangeset record
        ++ [fun row => { row with slug := kebab_case repository.name }]
        ++ repositorySecretChangeset repositorySecretAsNone
    .ok (store.map fun row =>
      if row.id = record.id then applySet assignments row else row)

/-! ## Queue items (src/queue/mod.rs) and reading rows back
(src/model/queues.rs) -/

/-- `ArbitraryData` (src/queue/mod.rs lines 55–66): the user-supplied
string-to-string map of a job (`HashMap` modelled as an association list). -/
structure ArbitraryData where
  inner : List (String × String)
  deriving DecidableEq, Repr

/-- `QueueLogItem` (src/queue/mod.rs lines 109–116). -/
structure QueueLogItem where
  status : ExecutionStatus
  createdAt : Nat
  deriving DecidableEq, Repr

/-- `QueueItem` (src/queue/mod.rs lines 69–93). -/
structure QueueItem where
  id : String
  repositoryId : String
  status : ExecutionStatus
  data : ArbitraryData
  createdAt : Nat
  updatedAt : Nat
  logs : List QueueLogItem
  deriving DecidableEq, Repr

/-- `QueueItem::new` (src/queue/mod.rs lines 95–107): a fresh item in
status `Queued` with empty logs; the random 24-character id and the current
time are modelled by the `freshId` and `now` parameters. -/
def QueueItem.new (freshId repositoryId : String) (data : ArbitraryData)
    (now : Nat) : QueueItem :=
  { id := freshId
    repositoryId := repositoryId
    status := .queued
    data := data
    createdAt := now
    updatedAt := now
    logs := [] }

/-- `QueueLogRecord` (src/model/queues.rs lines 62–71): one row of the
`queue_logs` table. -/
structure QueueLogRecord where
  id : Int
  status : String
  exitCode : Option Int
  createdAt : Nat
  queueId : String
  deriving DecidableEq, Repr

/-- `impl From<QueueLogRecord> for QueueLogItem`
(src/model/queues.rs lines 114–121). -/
def QueueLogItem.ofRecord (record : QueueLogRecord) : QueueLogItem :=
  { status := ExecutionStatus.ofRow (record.status, record.exitCode)
    createdAt := record.createdAt }

/-- `impl From<(QueueRecord, Vec<QueueLogRecord>)> for QueueItem`
(src/model/queues.rs lines 99–112). The call
`serde_json::from_str::<HashMap<String, String>>(&record.data)` is
external-crate behaviour and is modelled by its outcome `parsed` (`none`
when the `data` column is not valid JSON for a string-to-string map); the
source applies `.unwrap()` to it, so a parse failure panics — modelled as
`none` (the conversion, and with it the read, aborts). -/
def QueueItem.ofRecord (record : QueueRecord) (logs : List QueueLogRecord)
    (parsed : Option ArbitraryData) : Option QueueItem :=
  match parsed with
  | none => none
  | some data =>
      some
        { id := record.id
          repositoryId := record.repositoryId
          status := ExecutionStatus.ofRow (record.status, record.exitCode)
          data := data
          createdAt := record.createdAt
          updatedAt := record.updatedAt
          logs := logs.map QueueLogItem.ofRecord }

/-! ## `Queues::push` and `QueueManager::push`
(src/model/queues.rs lines 172–188, src/queue/mod.rs lines 195–255) -/

/-- `Queues::push` (src/model/queues.rs lines 172–188): the queue-row
insert result is pattern-matched — on `Err` the error is only written to
the error log (the source's own `TODO` comment says "Don't fail silently
here, rather fail in the calling function"); on `Ok` the status-log insert
runs, whose `Err` is likewise only logged. The Rust return type is `()`;
the second component models the error-log lines emitted, the first the
value returned to the caller. -/
def Queues.push (item : QueueItem)
    (insertResult logResult : Except String Unit) : Unit × List String :=
  match insertResult with
  | .error e => ((), ["Unable to persist queue item. " ++ e])
  | .ok _ =>
      match logResult with
      | .error e =>
          ((), ["Unable to update queue log for " ++ item.id ++ ". " ++ e])
      | .ok _ => ((), [])

/-- The store outcomes `QueueManager::push` encounters: the
`Repositories::find_by_slug` result and the two insert results of the
`Store.Push` write path. -/
structure PushEnv where
  repoLookup : Option Repository
  insertResult : Except String Unit
  logResult : Except String Unit

/-- `QueueManager::push` (src/queue/mod.rs lines 195–255): resolve the
repository by slug (error when missing), reject soft-deleted repositories,
build a fresh `Queued` item, call `self.model.push(&item)` — whose `()`
return carries no error channel — notify the queue service, and return
`Ok(item)`. Whether the queue service was already in the map or is freshly
installed does not change this flow. The second component carries the
error-log lines of the store write. -/
def QueueManager.push (env : PushEnv) (repositorySlug : String)
    (freshId : String) (data : ArbitraryData) (now : Nat) :
    Except String QueueItem × List String :=
  match env.repoLookup with
  | none => (.error ("Could not find repository " ++ repositorySlug), [])
  | some repository =>
      if repository.deleted then
        (.error "Repository has been deleted.", [])
      else
        let item := QueueItem.new freshId repository.id data now
        let pushed := Queues.push item env.insertResult env.logResult
        (.ok item, pushed.2)

/-! ## Session tokens (src/server/auth.rs) -/

/-- `UserPayload::new` (src/server/auth.rs lines 59–78): the `exp` claim is
`SystemTime::now() + Duration::from_secs(60)`, converted to a duration
since `UNIX_EPOCH` and taken `as_millis()` — i.e. a timestamp in
milliseconds. `nowMillis` models `SystemTime::now()` as milliseconds since
the epoch. -/
def userPayloadExp (nowMillis : Nat) : Nat :=
  nowMillis + 60 * 1000

/-- The `exp` check applied by
`decode::<UserPayload>(…, &Validation::new(Algorithm::HS256))` in
`AuthenticationPayload::from_request` (src/server/auth.rs lines 36–48).
The check itself lives in the external `jsonwebtoken` crate, which follows
RFC 7519: `exp` is compared against the current time in seconds since the
epoch with zero leeway — the token is accepted iff `nowSecs ≤ exp`. -/
def jwtExpAccepts (exp nowSecs : Nat) : Bool :=
  nowSecs ≤ exp

/-! ## SHA3-256 and the repository-secret hash
(src/main.rs, `HashedSecret::new`, lines 43–64)

`HashedSecret::new` calls the external `sha3` crate
(`Sha3_256::new/input/result`), which implements FIPS 202 SHA3-256; the
permutation and sponge below are that function. -/

/-- 64-bit rotate left on a value `< 2^64`. -/
def rotl64 (x n : Nat) : Nat :=
  ((x <<< n) % 2 ^ 64) ||| (x >>> (64 - n))

/-- The ρ step rotation offsets of Keccak-f[1600], indexed by `x + 5 * y`,
generated as in FIPS 202: starting from position `(1, 0)`, step `t` writes
`(t+1)(t+2)/2 mod 64` and moves to `(y, (2x+3y) mod 5)`; position `(0, 0)`
keeps offset 0. -/
def rhoOffsets : List Nat :=
  ((List.range 24).foldl
    (fun (st : Nat × Nat × List Nat) t =>
      let x := st.1
      let y := st.2.1
      let filled := st.2.2.set (x + 5 * y) ((t + 1) * (t + 2) / 2 % 64)
      (y, (2 * x + 3 * y) % 5, filled))
    (1, 0, List.replicate 25 0)).2.2

/-- Bit `rc(t)` of the FIPS 202 round-constant LFSR
(`x^8 + x^6 + x^5 + x^4 + 1` over GF(2)). -/
def rcBit (t : Nat) : Nat :=
  ((List.range t).foldl
    (fun r _ => ((r <<< 1) ^^^ ((r >>> 7) * 0x71)) &&& 0xFF) 1) &&& 1

/-- The 24 round constants of Keccak-f[1600], generated as in FIPS 202:
round `i` sets bit `2^j - 1` to `rc(7i + j)` for `j = 0, …, 6`. -/
def keccakRC : List Nat :=
  (List.range 24).map fun i =>
    (List.range 7).foldl
      (fun acc j => acc ||| (rcBit (7 * i + j) <<< (2 ^ j - 1))) 0

/-- Lane `(x, y)` of a Keccak state (25 lanes, indexed `x + 5 * y`). -/
def lane (s : List Nat) (x y : Nat) : Nat := s.getD (x + 5 * y) 0

/-- One round of Keccak-f[1600]: θ, ρ, π, χ and ι with round constant
`rc`. -/
def keccakRound (s : List Nat) (rc : Nat) : List Nat :=
  let c := fun x =>
    lane s x 0 ^^^ lane s x 1 ^^^ lane s x 2 ^^^ lane s x 3 ^^^ lane s x 4
  let d := fun x => c ((x + 4) % 5) ^^^ rotl64 (c ((x + 1) % 5)) 1
  let a := fun x y => lane s x y ^^^ d x
  let b := fun xx yy =>
    let x := (xx + 3 * yy) % 5
    let y := xx
    rotl64 (a x y) (rhoOffsets.getD (x + 5 * y) 0)
  let chi := fun x y =>
    b x y ^^^ ((b ((x + 1) % 5) y ^^^ (2 ^ 64 - 1)) &&& b ((x + 2) % 5) y)
  (List.range 25).map fun i =>
    let v := chi (i % 5) (i / 5)
    if i = 0 then v ^^^ rc else v

/-- The Keccak-f[1600] permutation: 24 rounds. -/
def keccakP (s : List Nat) : List Nat :=
  keccakRC.foldl keccakRound s

/-- Little-endian bytes to a 64-bit lane. -/
def bytesToLane (bs : List Nat) : Nat :=
  bs.foldr (fun b acc => acc * 256 + b) 0

/-- The eight little-endian bytes of a 64-bit lane. -/
def laneBytes (l : Nat) : List Nat :=
  (List.range 8).map fun j => (l >>> (8 * j)) % 256

/-- Absorb one rate-sized (136-byte) block: XOR it into the first 17 lanes
and permute. -/
def absorbBlock (s : List Nat) (block : List Nat) : List Nat :=
  keccakP ((List.range 25).map fun i =>
    if i < 17 then s.getD i 0 ^^^ bytesToLane ((block.drop (8 * i)).take 8)
    else s.getD i 0)

/-- Split into consecutive 136-byte blocks; `fuel` makes the recursion
structural and is instantiated with the list length. -/
def toBlocksFuel : Nat → List Nat → List (List Nat)
  | 0, _ => []
  | _ + 1, [] => []
  | fuel + 1, c :: cs =>
      ((c :: cs).take 136) :: toBlocksFuel fuel ((c :: cs).drop 136)

/-- Split a byte list into consecutive 136-byte blocks. -/
def toBlocks (l : List Nat) : List (List Nat) :=
  toBlocksFuel l.length l

/-- SHA3-256 (FIPS 202): pad with `0x06 … 0x80` to a multiple of the
136-byte rate, absorb all blocks from the all-zero state, and squeeze the
first 32 bytes. -/
def sha3_256 (msg : List Nat) : List Nat :=
  let rate := 136
  let padLen := rate - msg.length % rate
  let padded :=
    if padLen = 1 then msg ++ [0x86]
    else msg ++ [0x06] ++ List.replicate (padLen - 2) 0 ++ [0x80]
  let s := (toBlocks padded).foldl absorbBlock (List.replicate 25 0)
  ((List.range 4).map fun i => laneBytes (s.getD i 0)).flatten

set_option maxRecDepth 10000 in
/-- The embedded SHA3-256 reproduces the standard test vector for the empty
message. -/
theorem sha3_256_test_vector_empty :
    sha3_256 [] =
      [0xa7, 0xff, 0xc6, 0xf8, 0xbf, 0x1e, 0xd7, 0x66, 0x51, 0xc1, 0x47,
       0x56, 0xa0, 0x61, 0xd6, 0x62, 0xf5, 0x80, 0xff, 0x4d, 0xe4, 0x3b,
       0x49, 0xfa, 0x82, 0xd8, 0x0a, 0x4b, 0x80, 0xf8, 0x43, 0x4a] := by
  decide

set_option maxRecDepth 10000 in
/-- The embedded SHA3-256 reproduces the standard test vector for the
message `"abc"` (bytes `0x61 0x62 0x63`). -/
theorem sha3_256_test_vector_abc :
    sha3_256 [0x61, 0x62, 0x63] =
      [0x3a, 0x98, 0x5d, 0xa7, 0x4f, 0xe2, 0x25, 0xb2, 0x04, 0x5c, 0x17,
       0x2d, 0x6b, 0xd3, 0x90, 0xbd, 0x85, 0x5f, 0x08, 0x6e, 0x3e, 0x9d,
       0x52, 0x5b, 0x46, 0xbf, 0xe2, 0x45, 0x11, 0x43, 0x15, 0x32] := by
  decide

/-- Every SHA3-256 digest byte is `< 256`. -/
theorem sha3_256_bytes_lt (msg : List Nat) :
    ∀ b ∈ sha3_256 msg, b < 256 := by
  intro b hb
  simp only [sha3_256, List.mem_flatten, List.mem_map] at hb
  obtain ⟨bs, ⟨⟨i, -, hbs⟩, hbbs⟩⟩ := hb
  rw [← hbs] at hbbs
  simp only [laneBytes, List.mem_map] at hbbs
  obtain ⟨j, -, hbj⟩ := hbbs
  omega

/-- UTF-8 encoding of one scalar value (`str::as_bytes` is the UTF-8
encoding of the string). -/
def utf8EncodeChar (n : Nat) : List Nat :=
  if n < 0x80 then [n]
  else if n < 0x800 then
    [0xC0 ||| (n >>> 6), 0x80 ||| (n &&& 0x3F)]
  else if n < 0x10000 then
    [0xE0 ||| (n >>> 12), 0x80 ||| ((n >>> 6) &&& 0x3F),
     0x80 ||| (n &&& 0x3F)]
  else
    [0xF0 ||| (n >>> 18), 0x80 ||| ((n >>> 12) &&& 0x3F),
     0x80 ||| ((n >>> 6) &&& 0x3F), 0x80 ||| (n &&& 0x3F)]

/-- `val.as_bytes()`: the UTF-8 bytes of a string. -/
def utf8Bytes (s : String) : List Nat :=
  (s.toList.map (fun c => utf8EncodeChar c.toNat)).flatten

/-- The character `{:X}` prints for one hex digit (uppercase). -/
def hexDigitUpper (n : Nat) : Char :=
  if n < 10 then Char.ofNat (48 + n) else Char.ofNat (55 + n)

/-- The lowercase counterpart of `hexDigitUpper`. -/
def hexDigitLower (n : Nat) : Char :=
  if n < 10 then Char.ofNat (48 + n) else Char.ofNat (87 + n)

/-- `format!("{:X}", b)` for `b : u8`: minimal-width uppercase hexadecimal,
i.e. one digit for `b < 16` (no leading-zero padding), two digits
otherwise. -/
def formatUpperHex (n : Nat) : List Char :=
  if n < 16 then [hexDigitUpper n]
  else [hexDigitUpper (n / 16), hexDigitUpper (n % 16)]

/-- Minimal-width lowercase hexadecimal of a byte. -/
def formatLowerHex (n : Nat) : List Char :=
  if n < 16 then [hexDigitLower n]
  else [hexDigitLower (n / 16), hexDigitLower (n % 16)]

/-- `HashedSecret::new` (src/main.rs lines 46–58): SHA3-256 of the UTF-8
bytes of `val`; every digest byte is appended with
`write!(&mut hashed, "{:X}", b)` — uppercase hex without zero padding — and
the accumulated string is then `to_lowercase()`d. -/
def HashedSecret.new (val : String) : String :=
  stringToLower
    (String.mk (((sha3_256 (utf8Bytes val)).map formatUpperHex).flatten))

/-- The spec's `HashedValue` output encoding: lowercase hexadecimal with
exactly two digits per digest byte (leading zeros preserved, 64 characters
for a 32-byte digest). -/
def lowerHexPadded (bytes : List Nat) : String :=
  String.mk
    ((bytes.map fun n =>
      [hexDigitLower (n / 16 % 16), hexDigitLower (n % 16)]).flatten)

/-- The amended output encoding: lowercase hexadecimal with minimal digits
per byte — a byte below `0x10` contributes a single digit (its leading zero
is dropped). -/
def lowerHexNoPad (bytes : List Nat) : String :=
  String.mk ((bytes.map formatLowerHex).flatten)

theorem string_toList_mk (cs : List Char) : (String.mk cs).toList = cs := rfl

theorem asciiToLower_hexDigit :
    ∀ d : Fin 16, asciiToLower (hexDigitUpper d.val) = hexDigitLower d.val := by
  decide

theorem map_asciiToLower_formatUpperHex (n : Nat) (hn : n < 256) :
    (formatUpperHex n).map asciiToLower = formatLowerHex n := by
  by_cases h : n < 16
  · have hd := asciiToLower_hexDigit ⟨n, h⟩
    simp only [formatUpperHex, formatLowerHex, if_pos h, List.map_cons,
      List.map_nil]
    rw [hd]
  · have h1 : n / 16 < 16 := by omega
    have h2 : n % 16 < 16 := by omega
    have e1 := asciiToLower_hexDigit ⟨n / 16, h1⟩
    have e2 := asciiToLower_hexDigit ⟨n % 16, h2⟩
    simp only [formatUpperHex, formatLowerHex, if_neg h, List.map_cons,
      List.map_nil]
    rw [e1, e2]

theorem lower_of_upper (bytes : List Nat) (hb : ∀ b ∈ bytes, b < 256) :
    ((bytes.map formatUpperHex).flatten).map asciiToLower =
      (bytes.map formatLowerHex).flatten := by
  induction bytes with
  | nil => simp
  | cons b bs ih =>
    simp only [List.map_cons, List.flatten_cons, List.map_append]
    rw [map_asciiToLower_formatUpperHex b (hb b (by simp)),
      ih (fun x hx => hb x (by simp [hx]))]

/-! ## Concrete inputs used by witnesses and counterexamples -/

/-- A live repository (concrete input). -/
def demoRepository : Repository :=
  { id := "r1", slug := "demo", name := "Demo", run := "echo hi",
    workingDir := none, secret := "s0", «variables» := [], triggers := [],
    webhooks := [], deleted := false, createdAt := 0, updatedAt := 0 }

/-- A soft-deleted repository (concrete input). -/
def softDeletedRepository : Repository :=
  { id := "r2", slug := "gone", name := "Gone", run := "echo hi",
    workingDir := none, secret := "s1", «variables» := [], triggers := [],
    webhooks := [], deleted := true, createdAt := 0, updatedAt := 0 }

/-- A queued job row of the soft-deleted repository (concrete input). -/
def queuedJobRow : QueueRecord :=
  { id := "j1", status := "queued", exitCode := none, data := "{}",
    createdAt := 1, updatedAt := 1, repositoryId := "r2" }

/-! ## The claims -/

/-- C1: for every drained job whose child process is spawned and waited on,
`CommandRunner::process` assigns exactly one terminal status determined by
the wait result — exit code 0 yields `Completed`, a non-zero exit code `c`
yields `Failed c`, termination by signal (no exit code) yields `Cancelled`,
and a spawn failure yields `Failed (-1)`; the assigned status is always one
of the three terminal shapes. -/
theorem claim_C1_terminal_status :
    (∀ code : Int, code = 0 → terminalStatus (.ok (some code)) = .completed) ∧
    (∀ code : Int, code ≠ 0 → terminalStatus (.ok (some code)) = .failed code) ∧
    terminalStatus (.ok none) = .cancelled ∧
    terminalStatus .err = .failed (-1) ∧
    (∀ w : WaitResult,
      terminalStatus w = .completed ∨ terminalStatus w = .cancelled ∨
        ∃ c, terminalStatus w = .failed c) := by
  refine ⟨?_, ?_, rfl, rfl, ?_⟩
  · intro code h
    simp [terminalStatus, h, SUCCESS_EXIT_CODE]
  · intro code h
    simp [terminalStatus, h, SUCCESS_EXIT_CODE]
  · intro w
    rcases w with ⟨_ | c⟩ | _
    · right; left; rfl
    · by_cases h : c = 0
      · left; simp [terminalStatus, h, SUCCESS_EXIT_CODE]
      · right; right
        exact ⟨c, by simp [terminalStatus, h, SUCCESS_EXIT_CODE]⟩
    · right; right; exact ⟨-1, rfl⟩

/-- Witness for C1: the theorem applied at exit codes 7 and 0. -/
theorem claim_C1_terminal_status_witness :
    terminalStatus (.ok (some 7)) = .failed 7 ∧
    terminalStatus (.ok (some 0)) = .completed :=
  ⟨claim_C1_terminal_status.2.1 7 (by decide),
   claim_C1_terminal_status.1 0 rfl⟩

/-- C6: the status serialization maps `Failed c` to `("failed", some c)`
and every other status to a `none` exit code, so a written row has a
non-NULL `exit_code` iff its status string is `"failed"`; deserialization
maps `("failed", NULL)` and every unrecognized pair to `Unknown`; and no
status the engine writes (`Queued` on push, `Running`, or a terminal status
from a wait result) is `Unknown`. -/
theorem claim_C6_exit_code_iff_failed :
    (∀ st : ExecutionStatus, ((st.toRow).2 ≠ none ↔ (st.toRow).1 = "failed")) ∧
    (∀ c : Int, (ExecutionStatus.failed c).toRow = ("failed", some c)) ∧
    (∀ st : ExecutionStatus,
      (∀ c : Int, st ≠ .failed c) → (st.toRow).2 = none) ∧
    ExecutionStatus.ofRow ("failed", none) = .unknown ∧
    (∀ p : String × Option Int,
      ¬recognizedRow p → ExecutionStatus.ofRow p = .unknown) ∧
    (∀ st : ExecutionStatus, ExecutionStatus.ofRow (st.toRow) = st) ∧
    (∀ w : WaitResult, terminalStatus w ≠ .unknown) ∧
    ExecutionStatus.queued ≠ .unknown ∧
    ExecutionStatus.running ≠ .unknown := by
  refine ⟨?_, fun c => rfl, ?_, rfl, ?_, ?_, ?_, by decide, by decide⟩
  · intro st
    cases st <;> simp [ExecutionStatus.toRow]
  · intro st h
    cases st with
    | failed c => exact absurd rfl (h c)
    | _ => rfl
  · intro p hp
    rcases p with ⟨s, e⟩
    unfold ExecutionStatus.ofRow
    split <;> simp_all [recognizedRow]
  · intro st
    cases st <;> simp [ExecutionStatus.toRow, ExecutionStatus.ofRow]
  · intro w
    rcases w with ⟨_ | c⟩ | _
    · decide
    · by_cases h : c = SUCCESS_EXIT_CODE <;>
        simp [terminalStatus, h]
    · decide

/-- Witness for C6: the theorem applied at `Failed 7`, where the exit code
is present, and at `Completed` via the every-other-status part. -/
theorem claim_C6_exit_code_iff_failed_witness :
    ((ExecutionStatus.failed 7).toRow).1 = "failed" ∧
    (ExecutionStatus.completed.toRow).2 = none :=
  ⟨(claim_C6_exit_code_iff_failed.1 (.failed 7)).mp (by decide),
   claim_C6_exit_code_iff_failed.2.2.1 .completed (by intro c; simp)⟩

/-- C7 (code bug, evaluated at the failing input): when the queue-row
insert fails, `Queues::push` only logs the error — its own `TODO` comment
says the failure should instead reach the caller — and `QueueManager::push`
still returns `Ok(item)`: the caller receives no error. -/
theorem claim_C7_push_swallows_insert_error :
    QueueManager.push
      { repoLookup := some demoRepository,
        insertResult := .error "UNIQUE constraint failed: queue.id",
        logResult := .ok () }
      "demo" "job1" ⟨[]⟩ 5 =
      (.ok (QueueItem.new "job1" "r1" ⟨[]⟩ 5),
       ["Unable to persist queue item. UNIQUE constraint failed: queue.id"]) := by
  rfl

/-- C8 (code bug, evaluated at the failing input): a token issued at epoch
millisecond 1577836800000 (second 1577836800) carries
`exp = 1577836860000` — a millisecond timestamp — and the seconds-based
`exp` check of token validation still accepts it 3600 seconds after
issuance, far beyond the claimed 60-second expiry. -/
theorem claim_C8_token_accepted_long_after_60s :
    userPayloadExp 1577836800000 = 1577836860000 ∧
    1577836800 + 3600 > 1577836800 + 60 ∧
    jwtExpAccepts (userPayloadExp 1577836800000) (1577836800 + 3600) = true := by
  refine ⟨rfl, by norm_num, by decide⟩

/-- C10: converting a queue row into a `QueueItem` unwraps the JSON parse of
the `data` column — a parse failure panics (the conversion and with it the
read aborts), and a successful conversion carries exactly the parsed map,
never a default. -/
theorem claim_C10_row_parse_unwrap_panics :
    ∀ (record : QueueRecord) (logs : List QueueLogRecord)
      (parsed : Option ArbitraryData),
      (parsed = none → QueueItem.ofRecord record logs parsed = none) ∧
      ((QueueItem.ofRecord record logs parsed).isSome ↔ parsed.isSome) ∧
      (∀ item, QueueItem.ofRecord record logs parsed = some item →
        parsed = some item.data) := by
  intro record logs parsed
  refine ⟨?_, ?_, ?_⟩
  · intro h
    simp [QueueItem.ofRecord, h]
  · rcases parsed with - | d <;> simp [QueueItem.ofRecord]
  · intro item h
    rcases parsed with - | d
    · simp [QueueItem.ofRecord] at h
    · simp only [QueueItem.ofRecord, Option.some_inj] at h
      rw [← h]

/-- Witness for C10: the theorem applied at a row whose `data` column fails
to parse. -/
theorem claim_C10_row_parse_unwrap_panics_witness :
    QueueItem.ofRecord
      { id := "j9", status := "queued", exitCode := none, data := "not json",
        createdAt := 1, updatedAt := 1, repositoryId := "r1" } [] none =
      none :=
  (claim_C10_row_parse_unwrap_panics
    { id := "j9", status := "queued", exitCode := none, data := "not json",
      createdAt := 1, updatedAt := 1, repositoryId := "r1" } [] none).1 rfl

/-- C2: `next_queued` returns the `Queued` row of the given repository with
the smallest `created_at` (ties broken by insertion order, the row-list
order of the table), returns `none` exactly when that repository has no
`Queued` row, and consequently a drain pass takes jobs in `created_at`
ascending order. -/
theorem claim_C2_next_queued_oldest :
    ∀ (store : List QueueRecord) (repoId : String),
      (Queues.next_queued store repoId = none ↔
        queuedRows store repoId = []) ∧
      (∀ c, Queues.next_queued store repoId = some c →
        c ∈ queuedRows store repoId ∧ c.repositoryId = repoId ∧
        c.status = "queued" ∧
        (∀ x ∈ queuedRows store repoId, c.createdAt ≤ x.createdAt) ∧
        earliestMinBy (queuedRows store repoId) c) ∧
      (∀ (repos : List Repository) (wait : QueueRecord → WaitResult)
          (now fuel : Nat),
        List.Pairwise (fun a b => a.createdAt ≤ b.createdAt)
          (drainJobOrder repos repoId wait now fuel store)) := by
  intro store repoId
  refine ⟨?_, ?_, ?_⟩
  · exact next_queued_eq_first store repoId ▸ firstByCreatedAtAsc_none_iff _
  · intro c hc
    have hspec := firstByCreatedAtAsc_spec _ _ (next_queued_eq_first _ _ ▸ hc)
    have hmem := earliestMinBy_mem hspec
    have hflt : c.repositoryId = repoId ∧ c.status = "queued" := by
      have := hmem
      simp only [queuedRows, List.mem_filter, decide_eq_true_eq] at this
      exact ⟨this.1.2, this.2⟩
    exact ⟨hmem, hflt.1, hflt.2, earliestMinBy_min hspec, hspec⟩
  · intro repos wait now fuel
    exact drainJobOrder_sorted repos repoId wait now fuel store

/-- Witness for C2: the theorem applied at a two-row store where the later
inserted row has the smaller `created_at`. -/
theorem claim_C2_next_queued_oldest_witness :
    Queues.next_queued
        [{ id := "a", status := "queued", exitCode := none, data := "{}",
           createdAt := 5, updatedAt := 5, repositoryId := "r1" },
         { id := "b", status := "queued", exitCode := none, data := "{}",
           createdAt := 3, updatedAt := 3, repositoryId := "r1" }] "r1" =
      some { id := "b", status := "queued", exitCode := none, data := "{}",
             createdAt := 3, updatedAt := 3, repositoryId := "r1" } ∧
    { id := "b", status := "queued", exitCode := none, data := "{}",
      createdAt := 3, updatedAt := 3,
      repositoryId := "r1" : QueueRecord }.repositoryId = "r1" := by
  have h : Queues.next_queued
      [{ id := "a", status := "queued", exitCode := none, data := "{}",
         createdAt := 5, updatedAt := 5, repositoryId := "r1" },
       { id := "b", status := "queued", exitCode := none, data := "{}",
         createdAt := 3, updatedAt := 3, repositoryId := "r1" }] "r1" =
      some { id := "b", status := "queued", exitCode := none, data := "{}",
             createdAt := 3, updatedAt := 3, repositoryId := "r1" } := by
    decide
  exact ⟨h, ((claim_C2_next_queued_oldest _ "r1").2.1 _ h).2.1⟩

/-- C3: the trigger loop of `notify_github` computes `should_skip`
initialized `true` and flipped to `false` exactly when some rule of the
repository's trigger list matches the payload per the matching table
(`Any` everything, `Git(Any)` every git payload, `Git(Tag)` exactly tag
references, `Git(Head refs)` exactly head references with branch in
`refs`); the loop short-circuits on `Any` and `Git(Any)`; and a job is
enqueued iff `should_skip` ends up `false`, the response otherwise
reporting that trigger rules were not matched. -/
theorem claim_C3_github_trigger_matching :
    ∀ (repository : Repository) (payload : GitHubPayload),
      (notifyGithubShouldSkip repository.triggers payload = false ↔
        ∃ t ∈ repository.triggers, triggerMatches payload t = true) ∧
      (∀ (skip : Bool) (rest : List Trigger),
        shouldSkipLoop payload skip (Trigger.any :: rest) = false) ∧
      (∀ (skip : Bool) (rest : List Trigger),
        shouldSkipLoop payload skip (Trigger.git .any :: rest) = false) ∧
      (notify_github_decision repository payload = .enqueue ↔
        notifyGithubShouldSkip repository.triggers payload = false) ∧
      (notifyGithubShouldSkip repository.triggers payload = true →
        notify_github_decision repository payload =
          .skipped "Trigger rules not matched. No job queued") := by
  intro repository payload
  refine ⟨?_, fun skip rest => rfl, fun skip rest => rfl, ?_, ?_⟩
  · rw [notifyGithubShouldSkip, shouldSkipLoop_eq]
    simp [List.any_eq_true]
  · unfold notify_github_decision
    by_cases h : notifyGithubShouldSkip repository.triggers payload <;>
      simp [h]
  · intro h
    simp [notify_github_decision, h]

/-- Witness for C3: the theorem applied at a repository triggering on
`Git(Head(["master"]))` and a payload for `refs/heads/master`. -/
theorem claim_C3_github_trigger_matching_witness :
    notify_github_decision
      { demoRepository with triggers := [.git (.head ["master"])] }
      { reference := .head "master", before := "a", after := "b",
        headCommit := none } = .enqueue :=
  (claim_C3_github_trigger_matching
    { demoRepository with triggers := [.git (.head ["master"])] }
    { reference := .head "master", before := "a", after := "b",
      headCommit := none }).2.2.2.1.mpr (by decide)

/-- C4 counterexample: a soft-deleted repository is still returned by
`find_by_id` (the query has no `deleted` filter), the drain iteration does
not exit but takes the repository's queued job — which the loop then
transitions to `Running` — contradicting the claim that the loop exits for
a soft-deleted repository and that its queued jobs never execute. -/
theorem claim_C4_counterexample :
    softDeletedRepository.deleted = true ∧
    Repositories.find_by_id [softDeletedRepository] "r2" =
      some softDeletedRepository ∧
    drainStep [softDeletedRepository] [queuedJobRow] "r2" = .run queuedJobRow ∧
    drainJobOrder [softDeletedRepository] "r2" (fun _ => .ok (some 0)) 2 1
      [queuedJobRow] = [queuedJobRow] ∧
    (updateStatusRows [queuedJobRow] queuedJobRow.id .running 2).map
      QueueRecord.status = ["running"] := by
  refine ⟨rfl, by decide, by decide, by decide, by decide⟩

/-- C4 (amended): the drain loop re-reads the repository on each iteration
and exits when the repository is missing from the store; `find_by_id` does
not filter the `deleted` flag, so whenever a row with the id exists — even
soft-deleted — the loop proceeds to the repository's next queued job. -/
theorem claim_C4_drain_exits_only_when_repo_missing :
    ∀ (repos : List Repository) (queue : List QueueRecord) (rid : String),
      (Repositories.find_by_id repos rid = none →
        drainStep repos queue rid = .exitRepoMissing ∧
        ∀ (wait : QueueRecord → WaitResult) (now fuel : Nat),
          drainJobOrder repos rid wait now fuel queue = []) ∧
      (∀ repo, Repositories.find_by_id repos rid = some repo →
        drainStep repos queue rid =
          (match Queues.next_queued queue repo.id with
           | none => .exitNoJob
           | some item => .run item)) := by
  intro repos queue rid
  constructor
  · intro h
    constructor
    · unfold drainStep
      rw [h]
    · intro wait now fuel
      cases fuel with
      | zero => rfl
      | succ fuel =>
        unfold drainJobOrder
        rw [h]
  · intro repo h
    unfold drainStep
    rw [h]

/-- Witness for C4 (amended): the theorem applied at an empty repository
store (missing repository) and at the soft-deleted repository. -/
theorem claim_C4_drain_exits_only_when_repo_missing_witness :
    drainStep [] [queuedJobRow] "r2" = .exitRepoMissing ∧
    drainStep [softDeletedRepository] [queuedJobRow] "r2" =
      .run queuedJobRow := by
  constructor
  · exact ((claim_C4_drain_exits_only_when_repo_missing [] [queuedJobRow]
      "r2").1 (by decide)).1
  · have h := (claim_C4_drain_exits_only_when_repo_missing
      [softDeletedRepository] [queuedJobRow] "r2").2 softDeletedRepository
      (by decide)
    rw [h]
    decide

/-- The stored repository row before an update (concrete input for C5). -/
def storedRepoRow : RepositoryRecord :=
  { id := "r1", slug := "demo", name := "Demo", run := "",
    workingDir := none, secret := "s0", «variables» := some "",
    triggers := some "", webhooks := some "", deleted := 0,
    createdAt := 0, updatedAt := 0 }

/-- The update submitted through `PUT /repositories` (concrete input for
C5): `Repository` deserialization skips `secret`
(`#[serde(skip_deserializing)]`), leaving `String::default()` — the empty
string. -/
def submittedUpdate : Repository :=
  { id := "r1", slug := "", name := "Demo", run := "echo hi",
    workingDir := none, secret := "", «variables» := [], triggers := [],
    webhooks := [], deleted := false, createdAt := 7, updatedAt := 7 }

/-- A second stored row holding a different slug (concrete input for C5). -/
def otherStoredRepoRow : RepositoryRecord :=
  { storedRepoRow with id := "rOther", slug := "demo-2", name := "Demo 2" }

/-- The same update submitted under the other row's id (concrete input for
C5): its recomputed slug `"demo"` collides with `storedRepoRow`. -/
def otherSubmittedUpdate : Repository :=
  { submittedUpdate with id := "rOther" }

/-- C5 (code bug, evaluated at the failing input): the full-record
changeset in `Repositories::save` always assigns the non-optional `secret`
column from the submitted record, and `RepositorySecret::as_none()`
contributes no assignment, so an API update overwrites the stored secret
`"s0"` with the submitted record's empty secret — the secret column is not
held constant. The recomputed slug is written, and a slug held by a
different id is rejected, as claimed. -/
theorem claim_C5_save_overwrites_secret :
    storedRepoRow.secret = "s0" ∧
    (Repositories.save [storedRepoRow] submittedUpdate).map
        (fun rows => rows.map RepositoryRecord.secret) = .ok [""] ∧
    (Repositories.save [storedRepoRow] submittedUpdate).map
        (fun rows => rows.map RepositoryRecord.slug) = .ok ["demo"] ∧
    Repositories.save [storedRepoRow, otherStoredRepoRow]
        otherSubmittedUpdate =
      .error "Repository slug already exists" := by
  refine ⟨rfl, rfl, rfl, rfl⟩

set_option maxRecDepth 10000 in
/-- C9 counterexample: at input `"abc"` the produced hash is not the
two-hex-digits-per-byte lowercase encoding of the digest — the digest of
`"abc"` contains bytes below `0x10` whose leading zeros `{:X}` drops, so
the output has 62 characters instead of 64. -/
theorem claim_C9_counterexample :
    HashedSecret.new "abc" ≠ lowerHexPadded (sha3_256 (utf8Bytes "abc")) ∧
    (HashedSecret.new "abc").length = 62 ∧
    (lowerHexPadded (sha3_256 (utf8Bytes "abc"))).length = 64 := by
  refine ⟨by decide, by decide, by decide⟩

/-- C9 (amended): for every input string, the repository-secret hash equals
the lowercase hexadecimal encoding of the SHA3-256 digest of its UTF-8
bytes with minimal digits per byte — a digest byte below `0x10` contributes
a single digit (its leading zero is dropped by `{:X}`) — rather than
exactly two digits per byte. -/
theorem claim_C9_hash_is_minimal_lower_hex (val : String) :
    HashedSecret.new val = lowerHexNoPad (sha3_256 (utf8Bytes val)) := by
  simp only [HashedSecret.new, stringToLower, lowerHexNoPad, string_toList_mk]
  rw [lower_of_upper _ (sha3_256_bytes_lt (utf8Bytes val))]

end LittleCI
